import Mathlib

/-!
Verification of the local finite-element assembly kernels of
`src/1_Basic/1_myFEM/myIntegrator.cpp` (namespace ngfem):
`MyLaplaceIntegrator::CalcElementMatrix` and
`MySourceIntegrator::CalcElementVector`.

The embedding uses exact rationals for the real-valued arithmetic.
External framework facilities that the kernels consume through narrow
interfaces (integration-rule factory, element transformation, coefficient
evaluator) are modelled as explicit parameters, so the theorems quantify
over every behaviour of the host framework.
-/

namespace ngfem

/-- Reference/physical planar point, the `<2,2>` instantiation used by the code. -/
abbrev Vec2 := ℚ × ℚ

/-- A geometry tag, as returned by `fel.ElementType()` (external enum `ELEMENT_TYPE`). -/
inductive ELEMENT_TYPE where
  | ET_TRIG
  | ET_QUAD
  | ET_SEGM
deriving DecidableEq

/-- One quadrature point of an integration rule: reference point and weight
(`ir[i]` with `.Weight()`). -/
structure IntegrationPoint where
  point : Vec2
  weight : ℚ
deriving DecidableEq

/-- `IntegrationRule`: the ordered finite sequence of quadrature points the
external constructor `IntegrationRule(eltype, order)` produces. -/
abbrev IntegrationRule := List IntegrationPoint

/-- The external integration-rule constructor `IntegrationRule(eltype, order)`,
modelled as an arbitrary factory function. -/
abbrev IntegrationRuleFactory := ELEMENT_TYPE → ℕ → IntegrationRule

/-- `ElementTransformation`: maps reference to physical coordinates; at a
reference point it yields the mapped point, the Jacobian inverse and the measure. -/
structure ElementTransformation where
  PointMap : Vec2 → Vec2
  JacobianInverse : Vec2 → Matrix (Fin 2) (Fin 2) ℚ
  Measure : Vec2 → ℚ

/-- `MappedIntegrationPoint<2,2> mip(ir[i], eltrans)`: records the integration
point together with the transformation data evaluated there. -/
structure MappedIntegrationPoint where
  IP : IntegrationPoint
  GetPoint : Vec2
  GetJacobianInverse : Matrix (Fin 2) (Fin 2) ℚ
  GetMeasure : ℚ

/-- Construction of a `MappedIntegrationPoint` from an integration point and the
element transformation. -/
def mkMappedIntegrationPoint (ip : IntegrationPoint)
    (eltrans : ElementTransformation) : MappedIntegrationPoint :=
  { IP := ip
    GetPoint := eltrans.PointMap ip.point
    GetJacobianInverse := eltrans.JacobianInverse ip.point
    GetMeasure := eltrans.Measure ip.point }

/-- `CoefficientFunction`: the external scalar-field abstraction; the kernels
only use `Evaluate(mip)`. -/
structure CoefficientFunction where
  Evaluate : MappedIntegrationPoint → ℚ

/-- `MyBaseElement`, the element family the integrators support (declared in
`myElement.hpp`): geometry tag, polynomial order, and the two shape queries.
The number of basis functions `GetNDof()` is the type index `n`. -/
structure MyBaseElement (n : ℕ) where
  Order : ℕ
  ElementType : ELEMENT_TYPE
  CalcShape : Vec2 → (Fin n → ℚ)
  CalcDShape : Vec2 → Matrix (Fin n) (Fin 2) ℚ

/-- A `FiniteElement` reference passed to the integrators: either an element of
the supported family `MyBaseElement`, or an element of some other family
(on which the `dynamic_cast<const MyBaseElement&>` fails). -/
inductive FiniteElement (n : ℕ) where
  | myElement (fel : MyBaseElement n)
  | foreignElement (tag : ℕ)

/-- The failure raised by the checked downcast at the top of each kernel
(`std::bad_cast` from `dynamic_cast<const MyBaseElement&>`). -/
inductive AssemblyError where
  | invalidElementKind
deriving DecidableEq

/-- `dynamic_cast<const MyBaseElement&>(base_fel)`: succeeds exactly on the
supported family, otherwise raises the invalid-element-kind error. -/
def dynamicCastMyBase {n : ℕ} : FiniteElement n → Except AssemblyError (MyBaseElement n)
  | .myElement fel => .ok fel
  | .foreignElement _ => .error .invalidElementKind

/-- `LocalHeap`: the scratch allocator argument; the two kernels receive it but
never read it (their temporaries are ordinary `Matrix<>`/`Vector<>` objects). -/
structure LocalHeap where
  next : ℕ

/-- `MyLaplaceIntegrator`, holding the coefficient λ passed at construction. -/
structure MyLaplaceIntegrator where
  coef_lambda : CoefficientFunction

/-- `MySourceIntegrator`, holding the coefficient f passed at construction. -/
structure MySourceIntegrator where
  coef_f : CoefficientFunction

/-- `MyLaplaceIntegrator::CalcElementMatrix` from `myIntegrator.cpp` lines 34-87.
The call's outcome is the pair of the success/failure status and the final
contents of the output buffer `elmat`; on the failed downcast the buffer keeps
its prior contents. `irFactory` is the external `IntegrationRule` constructor. -/
def MyLaplaceIntegrator.CalcElementMatrix {n : ℕ} (self : MyLaplaceIntegrator)
    (irFactory : IntegrationRuleFactory)
    (base_fel : FiniteElement n) (eltrans : ElementTransformation)
    (elmat : Matrix (Fin n) (Fin n) ℚ) (lh : LocalHeap) :
    Except AssemblyError Unit × Matrix (Fin n) (Fin n) ℚ :=
  match dynamicCastMyBase base_fel with
  | .error e => (.error e, elmat)
  | .ok fel =>
      -- elmat = 0;
      let zeroed : Matrix (Fin n) (Fin n) ℚ := 0
      -- IntegrationRule ir(fel.ElementType(), 2*fel.Order());
      let ir := irFactory fel.ElementType (2 * fel.Order)
      let final := ir.foldl
        (fun acc ip =>
          let mip := mkMappedIntegrationPoint ip eltrans
          let lam := self.coef_lambda.Evaluate mip
          let dshape_ref := fel.CalcDShape ip.point
          let dshape := dshape_ref * mip.GetJacobianInverse
          let fac := mip.IP.weight * mip.GetMeasure
          acc + (fac * lam) • (dshape * dshape.transpose))
        zeroed
      (.ok (), final)

/-- `MySourceIntegrator::CalcElementVector` from `myIntegrator.cpp` lines 101-132,
modelled in the same way. -/
def MySourceIntegrator.CalcElementVector {n : ℕ} (self : MySourceIntegrator)
    (irFactory : IntegrationRuleFactory)
    (base_fel : FiniteElement n) (eltrans : ElementTransformation)
    (elvec : Fin n → ℚ) (lh : LocalHeap) :
    Except AssemblyError Unit × (Fin n → ℚ) :=
  match dynamicCastMyBase base_fel with
  | .error e => (.error e, elvec)
  | .ok fel =>
      let zeroed : Fin n → ℚ := 0
      let ir := irFactory fel.ElementType (2 * fel.Order)
      let final := ir.foldl
        (fun acc ip =>
          let mip := mkMappedIntegrationPoint ip eltrans
          let f := self.coef_f.Evaluate mip
          let shape := fel.CalcShape ip.point
          let fac := mip.IP.weight * mip.GetMeasure
          acc + (fac * f) • shape)
        zeroed
      (.ok (), final)

/-- One quadrature point's contribution `(w · measure · λ(x)) • (G * Gᵀ)` of the
specification's stiffness formula, where `G` is the reference-gradient matrix
right-multiplied by the Jacobian inverse. Stated from the spec's words. -/
def laplacePointTerm {n : ℕ} (lam : CoefficientFunction) (fel : MyBaseElement n)
    (eltrans : ElementTransformation) (ip : IntegrationPoint) :
    Matrix (Fin n) (Fin n) ℚ :=
  let mip := mkMappedIntegrationPoint ip eltrans
  let g := fel.CalcDShape ip.point * mip.GetJacobianInverse
  (mip.IP.weight * mip.GetMeasure * lam.Evaluate mip) • (g * g.transpose)

/-- The specification's formula for the element stiffness matrix: the sum over
the quadrature points of `(w · measure · λ(x)) • (G * Gᵀ)`. Stated from the
spec's words, to be compared with the code's result. -/
def specLaplaceElementMatrix {n : ℕ} (lam : CoefficientFunction)
    (fel : MyBaseElement n) (eltrans : ElementTransformation)
    (ir : IntegrationRule) : Matrix (Fin n) (Fin n) ℚ :=
  (ir.map fun ip => laplacePointTerm lam fel eltrans ip).sum

/-- One quadrature point's contribution `(w · measure · f(x)) • shape` of the
specification's load formula. Stated from the spec's words. -/
def sourcePointTerm {n : ℕ} (f : CoefficientFunction) (fel : MyBaseElement n)
    (eltrans : ElementTransformation) (ip : IntegrationPoint) : Fin n → ℚ :=
  let mip := mkMappedIntegrationPoint ip eltrans
  (mip.IP.weight * mip.GetMeasure * f.Evaluate mip) • fel.CalcShape ip.point

/-- The specification's formula for the element load vector: the sum over the
quadrature points of `(w · measure · f(x)) • shape`. Stated from the spec's
words, to be compared with the code's result. -/
def specSourceElementVector {n : ℕ} (f : CoefficientFunction)
    (fel : MyBaseElement n) (eltrans : ElementTransformation)
    (ir : IntegrationRule) : Fin n → ℚ :=
  (ir.map fun ip => sourcePointTerm f fel eltrans ip).sum

lemma foldl_add_eq_sum {α β : Type _} [AddCommMonoid β] (f : α → β)
    (l : List α) (a : β) :
    l.foldl (fun acc x => acc + f x) a = a + (l.map f).sum := by
  induction l generalizing a with
  | nil => simp
  | cons x xs ih => simp [ih, add_assoc]

/-- The matrix kernel, on the supported family, succeeds and its accumulation
loop computes exactly the quadrature sum of the spec's formula. Shared
unfolding lemma. -/
lemma calcElementMatrix_eq_spec {n : ℕ} (self : MyLaplaceIntegrator)
    (irFactory : IntegrationRuleFactory) (fel : MyBaseElement n)
    (eltrans : ElementTransformation) (elmat : Matrix (Fin n) (Fin n) ℚ)
    (lh : LocalHeap) :
    self.CalcElementMatrix irFactory (.myElement fel) eltrans elmat lh =
      (.ok (), specLaplaceElementMatrix self.coef_lambda fel eltrans
        (irFactory fel.ElementType (2 * fel.Order))) := by
  unfold MyLaplaceIntegrator.CalcElementMatrix specLaplaceElementMatrix
  simp only [dynamicCastMyBase]
  rw [foldl_add_eq_sum, zero_add]
  rfl

/-- The vector kernel, on the supported family, succeeds and its accumulation
loop computes exactly the quadrature sum of the spec's formula. Shared
unfolding lemma. -/
lemma calcElementVector_eq_spec {n : ℕ} (self : MySourceIntegrator)
    (irFactory : IntegrationRuleFactory) (fel : MyBaseElement n)
    (eltrans : ElementTransformation) (elvec : Fin n → ℚ) (lh : LocalHeap) :
    self.CalcElementVector irFactory (.myElement fel) eltrans elvec lh =
      (.ok (), specSourceElementVector self.coef_f fel eltrans
        (irFactory fel.ElementType (2 * fel.Order))) := by
  unfold MySourceIntegrator.CalcElementVector specSourceElementVector
  simp only [dynamicCastMyBase]
  rw [foldl_add_eq_sum, zero_add]
  rfl

/-- C1: for every supported reference finite element, element transformation,
coefficient λ, integration-rule factory, prior buffer contents and scratch
allocator, `MyLaplaceIntegrator::CalcElementMatrix` succeeds and overwrites the
ndof×ndof output matrix with the sum over the quadrature points i of
`(w_i · measure_i · λ(x_i)) • (G_i * G_iᵀ)`, where `G_i` is the reference
gradient matrix right-multiplied by the Jacobian inverse at point i. -/
theorem c1_laplace_matrix_is_quadrature_sum {n : ℕ} (self : MyLaplaceIntegrator)
    (irFactory : IntegrationRuleFactory) (fel : MyBaseElement n)
    (eltrans : ElementTransformation) (elmat : Matrix (Fin n) (Fin n) ℚ)
    (lh : LocalHeap) :
    self.CalcElementMatrix irFactory (.myElement fel) eltrans elmat lh =
      (.ok (), specLaplaceElementMatrix self.coef_lambda fel eltrans
        (irFactory fel.ElementType (2 * fel.Order))) :=
  calcElementMatrix_eq_spec self irFactory fel eltrans elmat lh

/-- C2: for every supported reference finite element, element transformation,
coefficient f, integration-rule factory, prior buffer contents and scratch
allocator, `MySourceIntegrator::CalcElementVector` succeeds and overwrites the
length-ndof output vector with the sum over the quadrature points i of
`(w_i · measure_i · f(x_i)) • shape_i`; the Jacobian inverse does not enter
the formula. -/
theorem c2_source_vector_is_quadrature_sum {n : ℕ} (self : MySourceIntegrator)
    (irFactory : IntegrationRuleFactory) (fel : MyBaseElement n)
    (eltrans : ElementTransformation) (elvec : Fin n → ℚ) (lh : LocalHeap) :
    self.CalcElementVector irFactory (.myElement fel) eltrans elvec lh =
      (.ok (), specSourceElementVector self.coef_f fel eltrans
        (irFactory fel.ElementType (2 * fel.Order))) :=
  calcElementVector_eq_spec self irFactory fel eltrans elvec lh

/-- C3: calling either kernel with a reference finite element outside the
supported family `MyBaseElement` fails with the invalid-element-kind error,
propagated immediately, and the output buffer retains exactly its contents
from before the call. -/
theorem c3_invalid_element_kind_leaves_buffer {n : ℕ}
    (laplace : MyLaplaceIntegrator) (source : MySourceIntegrator)
    (irFactory : IntegrationRuleFactory) (tag : ℕ)
    (eltrans : ElementTransformation) (elmat : Matrix (Fin n) (Fin n) ℚ)
    (elvec : Fin n → ℚ) (lh : LocalHeap) :
    laplace.CalcElementMatrix irFactory (.foreignElement tag) eltrans elmat lh =
      (.error .invalidElementKind, elmat) ∧
    source.CalcElementVector irFactory (.foreignElement tag) eltrans elvec lh =
      (.error .invalidElementKind, elvec) :=
  ⟨rfl, rfl⟩

/-- C5: for every valid input the assembled element matrix is symmetric. -/
theorem c5_laplace_matrix_symmetric {n : ℕ} (self : MyLaplaceIntegrator)
    (irFactory : IntegrationRuleFactory) (fel : MyBaseElement n)
    (eltrans : ElementTransformation) (elmat : Matrix (Fin n) (Fin n) ℚ)
    (lh : LocalHeap) :
    (self.CalcElementMatrix irFactory (.myElement fel) eltrans elmat lh).2.transpose =
      (self.CalcElementMatrix irFactory (.myElement fel) eltrans elmat lh).2 := by
  rw [calcElementMatrix_eq_spec]
  unfold specLaplaceElementMatrix
  induction irFactory fel.ElementType (2 * fel.Order) with
  | nil => simp
  | cons ip rest ih =>
      simp only [List.map_cons, List.sum_cons, Matrix.transpose_add, ih]
      congr 1
      simp [laplacePointTerm, Matrix.transpose_smul, Matrix.transpose_mul,
        Matrix.transpose_transpose, Matrix.mul_assoc]

/-- The quadratic form of a Gram matrix `g * gᵀ` is non-negative. -/
lemma quadform_gram_nonneg {n : ℕ} (g : Matrix (Fin n) (Fin 2) ℚ) (v : Fin n → ℚ) :
    0 ≤ Matrix.dotProduct v ((g * g.transpose).mulVec v) := by
  rw [← Matrix.mulVec_mulVec, Matrix.dotProduct_mulVec, ← Matrix.mulVec_transpose]
  exact Finset.sum_nonneg fun i _ => mul_self_nonneg _

/-- The spec quadrature sum has a non-negative quadratic form whenever the
weights, the measure and the coefficient are non-negative. -/
lemma specLaplace_quadform_nonneg {n : ℕ} (lam : CoefficientFunction)
    (fel : MyBaseElement n) (eltrans : ElementTransformation)
    (ir : IntegrationRule)
    (hw : ∀ ip ∈ ir, 0 ≤ ip.weight)
    (hm : ∀ p : Vec2, 0 ≤ eltrans.Measure p)
    (hl : ∀ mip : MappedIntegrationPoint, 0 ≤ lam.Evaluate mip)
    (v : Fin n → ℚ) :
    0 ≤ Matrix.dotProduct v
      ((specLaplaceElementMatrix lam fel eltrans ir).mulVec v) := by
  induction ir with
  | nil => simp [specLaplaceElementMatrix]
  | cons ip rest ih =>
      have hrest : ∀ q ∈ rest, 0 ≤ q.weight := fun q hq => hw q (List.mem_cons_of_mem _ hq)
      have hterm : 0 ≤ Matrix.dotProduct v
          ((laplacePointTerm lam fel eltrans ip).mulVec v) := by
        unfold laplacePointTerm
        rw [Matrix.smul_mulVec_assoc, Matrix.dotProduct_smul, smul_eq_mul]
        refine mul_nonneg ?_ (quadform_gram_nonneg _ v)
        exact mul_nonneg (mul_nonneg (hw ip (List.mem_cons_self ip rest))
          (hm ip.point)) (hl _)
      have hsplit : specLaplaceElementMatrix lam fel eltrans (ip :: rest) =
          laplacePointTerm lam fel eltrans ip +
            specLaplaceElementMatrix lam fel eltrans rest := by
        simp [specLaplaceElementMatrix]
      rw [hsplit, Matrix.add_mulVec, Matrix.dotProduct_add]
      exact add_nonneg hterm (ih hrest)

/-- C6: when the quadrature weights and the measure are non-negative and λ is
strictly positive everywhere, the assembled element matrix is positive
semi-definite: its quadratic form is non-negative at every vector. -/
theorem c6_laplace_matrix_psd {n : ℕ} (self : MyLaplaceIntegrator)
    (irFactory : IntegrationRuleFactory) (fel : MyBaseElement n)
    (eltrans : ElementTransformation) (elmat : Matrix (Fin n) (Fin n) ℚ)
    (lh : LocalHeap)
    (hw : ∀ ip ∈ irFactory fel.ElementType (2 * fel.Order), 0 ≤ ip.weight)
    (hm : ∀ p : Vec2, 0 ≤ eltrans.Measure p)
    (hl : ∀ mip : MappedIntegrationPoint, 0 < self.coef_lambda.Evaluate mip)
    (v : Fin n → ℚ) :
    0 ≤ Matrix.dotProduct v
      ((self.CalcElementMatrix irFactory (.myElement fel) eltrans elmat lh).2.mulVec v) := by
  rw [calcElementMatrix_eq_spec]
  exact specLaplace_quadform_nonneg self.coef_lambda fel eltrans _ hw hm
    (fun mip => le_of_lt (hl mip)) v

/-- Scaling the coefficient by `c` scales each point contribution of the
stiffness formula by `c`. -/
lemma laplacePointTerm_scale {n : ℕ} (c : ℚ) (lam : CoefficientFunction)
    (fel : MyBaseElement n) (eltrans : ElementTransformation)
    (ip : IntegrationPoint) :
    laplacePointTerm ⟨fun mip => c * lam.Evaluate mip⟩ fel eltrans ip =
      c • laplacePointTerm lam fel eltrans ip := by
  simp only [laplacePointTerm, smul_smul]
  congr 1
  ring

/-- Scaling the coefficient by `c` scales each point contribution of the
load formula by `c`. -/
lemma sourcePointTerm_scale {n : ℕ} (c : ℚ) (f : CoefficientFunction)
    (fel : MyBaseElement n) (eltrans : ElementTransformation)
    (ip : IntegrationPoint) :
    sourcePointTerm ⟨fun mip => c * f.Evaluate mip⟩ fel eltrans ip =
      c • sourcePointTerm f fel eltrans ip := by
  simp only [sourcePointTerm, smul_smul]
  congr 1
  ring

/-- Scaling the coefficient by `c` scales the whole spec stiffness sum by `c`. -/
lemma specLaplace_scale {n : ℕ} (c : ℚ) (lam : CoefficientFunction)
    (fel : MyBaseElement n) (eltrans : ElementTransformation)
    (ir : IntegrationRule) :
    specLaplaceElementMatrix ⟨fun mip => c * lam.Evaluate mip⟩ fel eltrans ir =
      c • specLaplaceElementMatrix lam fel eltrans ir := by
  induction ir with
  | nil => simp [specLaplaceElementMatrix]
  | cons ip rest ih =>
      simp only [specLaplaceElementMatrix, List.map_cons, List.sum_cons] at ih ⊢
      rw [ih, laplacePointTerm_scale, smul_add]

/-- Scaling the coefficient by `c` scales the whole spec load sum by `c`. -/
lemma specSource_scale {n : ℕ} (c : ℚ) (f : CoefficientFunction)
    (fel : MyBaseElement n) (eltrans : ElementTransformation)
    (ir : IntegrationRule) :
    specSourceElementVector ⟨fun mip => c * f.Evaluate mip⟩ fel eltrans ir =
      c • specSourceElementVector f fel eltrans ir := by
  induction ir with
  | nil => simp [specSourceElementVector]
  | cons ip rest ih =>
      simp only [specSourceElementVector, List.map_cons, List.sum_cons] at ih ⊢
      rw [ih, sourcePointTerm_scale, smul_add]

/-- C7: for every constant c and every valid input, running the vector kernel
with coefficient c·f yields c times the vector obtained with f, and running
the matrix kernel with coefficient c·λ yields c times the matrix obtained
with λ. -/
theorem c7_linearity_in_coefficient {n : ℕ} (c : ℚ) (lam f : CoefficientFunction)
    (irFactory : IntegrationRuleFactory) (fel : MyBaseElement n)
    (eltrans : ElementTransformation) (elmat : Matrix (Fin n) (Fin n) ℚ)
    (elvec : Fin n → ℚ) (lh : LocalHeap) :
    ((⟨⟨fun mip => c * f.Evaluate mip⟩⟩ : MySourceIntegrator).CalcElementVector
        irFactory (.myElement fel) eltrans elvec lh).2 =
      c • ((⟨f⟩ : MySourceIntegrator).CalcElementVector irFactory
        (.myElement fel) eltrans elvec lh).2 ∧
    ((⟨⟨fun mip => c * lam.Evaluate mip⟩⟩ : MyLaplaceIntegrator).CalcElementMatrix
        irFactory (.myElement fel) eltrans elmat lh).2 =
      c • ((⟨lam⟩ : MyLaplaceIntegrator).CalcElementMatrix irFactory
        (.myElement fel) eltrans elmat lh).2 := by
  constructor
  · rw [calcElementVector_eq_spec, calcElementVector_eq_spec]
    exact specSource_scale c f fel eltrans _
  · rw [calcElementMatrix_eq_spec, calcElementMatrix_eq_spec]
    exact specLaplace_scale c lam fel eltrans _

/-- C8: each kernel builds its integration rule from exactly the pair
(element geometry, 2 × element order): its whole outcome depends on the
external rule factory only through the factory's value at that pair, and the
pair is the same for the matrix and the vector kernel on the same element. -/
theorem c8_rule_built_from_geometry_and_twice_order {n : ℕ}
    (laplace : MyLaplaceIntegrator) (source : MySourceIntegrator)
    (irf1 irf2 : IntegrationRuleFactory) (fel : MyBaseElement n)
    (eltrans : ElementTransformation) (elmat : Matrix (Fin n) (Fin n) ℚ)
    (elvec : Fin n → ℚ) (lh : LocalHeap)
    (h : irf1 fel.ElementType (2 * fel.Order) = irf2 fel.ElementType (2 * fel.Order)) :
    laplace.CalcElementMatrix irf1 (.myElement fel) eltrans elmat lh =
      laplace.CalcElementMatrix irf2 (.myElement fel) eltrans elmat lh ∧
    source.CalcElementVector irf1 (.myElement fel) eltrans elvec lh =
      source.CalcElementVector irf2 (.myElement fel) eltrans elvec lh := by
  refine ⟨?_, ?_⟩
  · rw [calcElementMatrix_eq_spec, calcElementMatrix_eq_spec, h]
  · rw [calcElementVector_eq_spec, calcElementVector_eq_spec, h]

/-- C9: neither kernel's outcome (status and buffer contents) depends on the
supplied scratch allocator: two calls differing only in the `LocalHeap`
argument agree exactly, for every reference element (supported or not). -/
theorem c9_localheap_independent {n : ℕ}
    (laplace : MyLaplaceIntegrator) (source : MySourceIntegrator)
    (irFactory : IntegrationRuleFactory) (base_fel : FiniteElement n)
    (eltrans : ElementTransformation) (elmat : Matrix (Fin n) (Fin n) ℚ)
    (elvec : Fin n → ℚ) (lh1 lh2 : LocalHeap) :
    laplace.CalcElementMatrix irFactory base_fel eltrans elmat lh1 =
      laplace.CalcElementMatrix irFactory base_fel eltrans elmat lh2 ∧
    source.CalcElementVector irFactory base_fel eltrans elvec lh1 =
      source.CalcElementVector irFactory base_fel eltrans elvec lh2 :=
  ⟨rfl, rfl⟩

/-- C10: on the success path (a supported reference element) each kernel's
result is independent of the output buffer's prior contents, because the
buffer is assigned zero before any accumulation. -/
theorem c10_prior_buffer_contents_irrelevant {n : ℕ}
    (laplace : MyLaplaceIntegrator) (source : MySourceIntegrator)
    (irFactory : IntegrationRuleFactory) (fel : MyBaseElement n)
    (eltrans : ElementTransformation)
    (elmat1 elmat2 : Matrix (Fin n) (Fin n) ℚ)
    (elvec1 elvec2 : Fin n → ℚ) (lh : LocalHeap) :
    laplace.CalcElementMatrix irFactory (.myElement fel) eltrans elmat1 lh =
      laplace.CalcElementMatrix irFactory (.myElement fel) eltrans elmat2 lh ∧
    source.CalcElementVector irFactory (.myElement fel) eltrans elvec1 lh =
      source.CalcElementVector irFactory (.myElement fel) eltrans elvec2 lh :=
  ⟨rfl, rfl⟩

/-! Concrete fixtures used to instantiate the hypotheses of the theorems. -/

/-- A concrete one-basis-function element of the supported family. -/
def unitElement : MyBaseElement 1 where
  Order := 1
  ElementType := .ET_TRIG
  CalcShape := fun _ _ => 1
  CalcDShape := fun _ => Matrix.of ![![1, 0]]

/-- The identity element transformation. -/
def idTrafo : ElementTransformation where
  PointMap := id
  JacobianInverse := fun _ => 1
  Measure := fun _ => 1

/-- The constant coefficient 1. -/
def oneCoefficient : CoefficientFunction := ⟨fun _ => 1⟩

/-- A one-point quadrature rule of weight 1/2 at the triangle barycentre. -/
def midpointRule : IntegrationRule := [⟨(1/3, 1/3), 1/2⟩]

/-- A factory always returning the barycentre rule. -/
def midpointFactory : IntegrationRuleFactory := fun _ _ => midpointRule

/-- A factory returning the barycentre rule at order 2 only; agrees with
`midpointFactory` at (ET_TRIG, 2) but differs elsewhere. -/
def midpointFactoryAtTwo : IntegrationRuleFactory :=
  fun _ k => if k = 2 then midpointRule else []

/-- Modelled from the spec: the repository's order-1 triangular reference
element (declared in `myElement.hpp`, which is not under `src/`). Its P1 hat
shape functions on the reference right triangle with vertices (1,0), (0,1),
(0,0) are x, y and 1-x-y, with constant reference gradients (1,0), (0,1) and
(-1,-1) as the rows of the ndof×2 gradient matrix. -/
def MyLinearTrig : MyBaseElement 3 where
  Order := 1
  ElementType := .ET_TRIG
  CalcShape := fun p => ![p.1, p.2, 1 - p.1 - p.2]
  CalcDShape := fun _ => Matrix.of ![![1, 0], ![0, 1], ![-1, -1]]

/-- Determinant of the Jacobian of the affine map sending the reference right
triangle to the physical triangle (p1, p2, p3). -/
def trigJacDet (p1 p2 p3 : Vec2) : ℚ :=
  (p1.1 - p3.1) * (p2.2 - p3.2) - (p2.1 - p3.1) * (p1.2 - p3.2)

/-- The affine element transformation sending the reference vertices (1,0),
(0,1), (0,0) to the physical vertices p1, p2, p3: constant Jacobian with
columns p1-p3 and p2-p3, inverse by the 2×2 cofactor formula, measure the
absolute Jacobian determinant. -/
def affineTrigTrafo (p1 p2 p3 : Vec2) : ElementTransformation where
  PointMap := fun q =>
    (p3.1 + q.1 * (p1.1 - p3.1) + q.2 * (p2.1 - p3.1),
     p3.2 + q.1 * (p1.2 - p3.2) + q.2 * (p2.2 - p3.2))
  JacobianInverse := fun _ =>
    Matrix.of
      ![![(p2.2 - p3.2) / trigJacDet p1 p2 p3, -(p2.1 - p3.1) / trigJacDet p1 p2 p3],
        ![-(p1.2 - p3.2) / trigJacDet p1 p2 p3, (p1.1 - p3.1) / trigJacDet p1 p2 p3]]
  Measure := fun _ => |trigJacDet p1 p2 p3|

/-- The classical analytic P1 Laplace local stiffness matrix of the physical
triangle (p1, p2, p3), written from the triangle's edge vectors: with e_i the
edge opposite vertex i (oriented cyclically: e_1 = p3-p2, e_2 = p1-p3,
e_3 = p2-p1) and A the triangle area, the (i,j) entry is (e_i · e_j) / (4A). -/
def classicalP1LaplaceMatrix (p1 p2 p3 : Vec2) : Matrix (Fin 3) (Fin 3) ℚ :=
  let e : Fin 3 → Vec2 :=
    ![(p3.1 - p2.1, p3.2 - p2.2), (p1.1 - p3.1, p1.2 - p3.2),
      (p2.1 - p1.1, p2.2 - p1.2)]
  Matrix.of fun i j =>
    ((e i).1 * (e j).1 + (e i).2 * (e j).2) / (4 * (|trigJacDet p1 p2 p3| / 2))

/-- When every point contribution is the weight times a fixed matrix, the spec
stiffness sum is the total weight times that matrix. -/
lemma specLaplace_of_pointwise {n : ℕ} (lam : CoefficientFunction)
    (fel : MyBaseElement n) (eltrans : ElementTransformation)
    (ir : IntegrationRule) (M0 : Matrix (Fin n) (Fin n) ℚ)
    (h : ∀ ip : IntegrationPoint, laplacePointTerm lam fel eltrans ip = ip.weight • M0) :
    specLaplaceElementMatrix lam fel eltrans ir =
      ((ir.map fun ip => ip.weight).sum) • M0 := by
  induction ir with
  | nil => simp [specLaplaceElementMatrix]
  | cons ip rest ih =>
      simp only [specLaplaceElementMatrix, List.map_cons, List.sum_cons] at ih ⊢
      rw [h ip, ih, add_smul]

/-- The constant physical-gradient matrix of the order-1 triangular element on
the triangle (p1, p2, p3): reference gradients right-multiplied by the
(constant) Jacobian inverse. -/
def p1PhysGrad (p1 p2 p3 : Vec2) : Matrix (Fin 3) (Fin 2) ℚ :=
  MyLinearTrig.CalcDShape (0, 0) *
    (affineTrigTrafo p1 p2 p3).JacobianInverse (0, 0)

set_option maxHeartbeats 1600000 in
/-- C4: with coefficient λ ≡ 1, the order-1 triangular element and the affine
transformation onto the physical triangle (p1, p2, p3), the kernel's 3×3
output equals the classical analytic P1 Laplace local stiffness matrix of that
triangle, provided the triangle is non-degenerate and the quadrature rule at
(ET_TRIG, 2) integrates constants exactly (its weights sum to the reference
area 1/2). -/
theorem c4_p1_triangle_matches_classical (p1 p2 p3 : Vec2)
    (irFactory : IntegrationRuleFactory)
    (elmat : Matrix (Fin 3) (Fin 3) ℚ) (lh : LocalHeap)
    (hdet : trigJacDet p1 p2 p3 ≠ 0)
    (hsum : ((irFactory ELEMENT_TYPE.ET_TRIG 2).map fun ip => ip.weight).sum = 1 / 2) :
    ((⟨oneCoefficient⟩ : MyLaplaceIntegrator).CalcElementMatrix irFactory
        (.myElement MyLinearTrig) (affineTrigTrafo p1 p2 p3) elmat lh).2 =
      classicalP1LaplaceMatrix p1 p2 p3 := by
  rw [calcElementMatrix_eq_spec]
  have hpoint : ∀ ip : IntegrationPoint,
      laplacePointTerm oneCoefficient MyLinearTrig (affineTrigTrafo p1 p2 p3) ip =
        ip.weight • (|trigJacDet p1 p2 p3| •
          (p1PhysGrad p1 p2 p3 * (p1PhysGrad p1 p2 p3).transpose)) := by
    intro ip
    rw [smul_smul]
    show (ip.weight * |trigJacDet p1 p2 p3| * 1) •
        (p1PhysGrad p1 p2 p3 * (p1PhysGrad p1 p2 p3).transpose) =
      (ip.weight * |trigJacDet p1 p2 p3|) •
        (p1PhysGrad p1 p2 p3 * (p1PhysGrad p1 p2 p3).transpose)
    rw [mul_one]
  rw [specLaplace_of_pointwise oneCoefficient MyLinearTrig
        (affineTrigTrafo p1 p2 p3) _ _ hpoint]
  have hrule : irFactory MyLinearTrig.ElementType (2 * MyLinearTrig.Order) =
      irFactory ELEMENT_TYPE.ET_TRIG 2 := rfl
  rw [hrule, hsum]
  ext i j
  rcases abs_cases (trigJacDet p1 p2 p3) with ⟨hD, _⟩ | ⟨hD, _⟩ <;>
    fin_cases i <;> fin_cases j <;>
    simp only [classicalP1LaplaceMatrix, p1PhysGrad, MyLinearTrig, affineTrigTrafo,
      hD, Matrix.smul_apply, Matrix.of_apply, Matrix.mul_apply, Matrix.transpose_apply,
      Fin.sum_univ_two, Fin.sum_univ_three, Matrix.cons_val_zero, Matrix.cons_val_one,
      Matrix.head_cons, Matrix.cons_val_two, Matrix.tail_cons, smul_eq_mul,
      Fin.isValue] <;>
    field_simp <;> ring

/-- Witness for C4 at the reference triangle with vertices (1,0), (0,1), (0,0)
and the barycentre quadrature rule. -/
theorem c4_p1_triangle_matches_classical_witness :
    trigJacDet (1, 0) (0, 1) (0, 0) ≠ 0 ∧
    ((midpointFactory ELEMENT_TYPE.ET_TRIG 2).map fun ip => ip.weight).sum = 1 / 2 ∧
    ((⟨oneCoefficient⟩ : MyLaplaceIntegrator).CalcElementMatrix midpointFactory
        (.myElement MyLinearTrig) (affineTrigTrafo (1, 0) (0, 1) (0, 0)) 0 ⟨0⟩).2 =
      classicalP1LaplaceMatrix (1, 0) (0, 1) (0, 0) :=
  ⟨by simp [trigJacDet], by simp [midpointFactory, midpointRule],
   c4_p1_triangle_matches_classical (1, 0) (0, 1) (0, 0) midpointFactory 0 ⟨0⟩
     (by simp [trigJacDet]) (by simp [midpointFactory, midpointRule])⟩

/-- Witness for C6 at a concrete input: barycentre rule, identity map,
coefficient 1, test vector 1. -/
theorem c6_laplace_matrix_psd_witness :
    (∀ ip ∈ midpointFactory unitElement.ElementType (2 * unitElement.Order),
      0 ≤ ip.weight) ∧
    (∀ p : Vec2, 0 ≤ idTrafo.Measure p) ∧
    (∀ mip : MappedIntegrationPoint, 0 < oneCoefficient.Evaluate mip) ∧
    0 ≤ Matrix.dotProduct (fun _ => 1)
      (((⟨oneCoefficient⟩ : MyLaplaceIntegrator).CalcElementMatrix midpointFactory
        (.myElement unitElement) idTrafo 0 ⟨0⟩).2.mulVec (fun _ => 1)) :=
  ⟨by simp [midpointFactory, midpointRule], fun _ => zero_le_one, fun _ => zero_lt_one,
   c6_laplace_matrix_psd ⟨oneCoefficient⟩ midpointFactory unitElement idTrafo 0 ⟨0⟩
     (by simp [midpointFactory, midpointRule]) (fun _ => zero_le_one)
     (fun _ => zero_lt_one) (fun _ => 1)⟩

/-- Witness for C8 at a concrete input: two factories agreeing at
(ET_TRIG, 2·1) give identical outcomes. -/
theorem c8_rule_built_from_geometry_and_twice_order_witness :
    midpointFactory unitElement.ElementType (2 * unitElement.Order) =
      midpointFactoryAtTwo unitElement.ElementType (2 * unitElement.Order) ∧
    ((⟨oneCoefficient⟩ : MyLaplaceIntegrator).CalcElementMatrix midpointFactory
        (.myElement unitElement) idTrafo 0 ⟨0⟩ =
      (⟨oneCoefficient⟩ : MyLaplaceIntegrator).CalcElementMatrix midpointFactoryAtTwo
        (.myElement unitElement) idTrafo 0 ⟨0⟩ ∧
    (⟨oneCoefficient⟩ : MySourceIntegrator).CalcElementVector midpointFactory
        (.myElement unitElement) idTrafo 0 ⟨0⟩ =
      (⟨oneCoefficient⟩ : MySourceIntegrator).CalcElementVector midpointFactoryAtTwo
        (.myElement unitElement) idTrafo 0 ⟨0⟩) :=
  ⟨rfl,
   c8_rule_built_from_geometry_and_twice_order ⟨oneCoefficient⟩ ⟨oneCoefficient⟩
     midpointFactory midpointFactoryAtTwo unitElement idTrafo 0 0 ⟨0⟩ rfl⟩

end ngfem
